import Mathlib

set_option maxHeartbeats 1000000

/-!
Verification of the RSS-translate-notify pipeline.

The Go sources are embedded shallowly:

- Go strings are modelled as `List Char` (`GoStr`).  Every slicing
  operation performed by the embedded code happens at the position of an
  ASCII character, where Go byte indices and character indices coincide.
- `time.Time` values are modelled as `Int` seconds.
- HTTP calls (DeepL, OpenAI, Slack) are modelled as oracle functions
  supplied as parameters; an `Except` value or a `Bool` outcome stands for
  the success or failure of one call.
- The Go map `lastChecked map[string]bool` is modelled by the list of its
  keys.  Go does not specify a map iteration order, so functions that
  iterate over the map receive the iteration order as an explicit list.
-/

namespace RSSNotify

/-- Go strings, modelled as lists of characters. -/
abbrev GoStr := List Char

/-- Whitespace test of Go `unicode.IsSpace`, restricted to the Latin-1
range; the characters beyond Latin-1 classified as White_Space by Unicode
are not produced by any literal of this repository. -/
def goIsSpace (c : Char) : Bool :=
  c = ' ' || c = '\t' || c = '\n' || c = '\x0b' || c = '\x0c' || c = '\r' ||
    c = '\u0085' || c = ' '

/-- Model of Go `strings.TrimSpace`: remove leading and trailing
whitespace. -/
def goTrimSpace (s : GoStr) : GoStr :=
  ((s.dropWhile goIsSpace).reverse.dropWhile goIsSpace).reverse

/-- Model of Go `strings.Index` for a one-character pattern: position of
the first occurrence; `none` models the -1 returned on absence. -/
def goIndex (c : Char) : GoStr → Option Nat
  | [] => none
  | x :: xs => if x = c then some 0 else (goIndex c xs).map (· + 1)

/-- Model of Go `strings.LastIndex` for a one-character pattern: position
of the last occurrence; `none` models the -1 returned on absence. -/
def goLastIndex (c : Char) : GoStr → Option Nat
  | [] => none
  | x :: xs =>
    match goLastIndex c xs with
    | some i => some (i + 1)
    | none => if x = c then some 0 else none

/-- Model of Go `strings.Split` with a one-character separator. -/
def splitOnChar (c : Char) : GoStr → List GoStr
  | [] => [[]]
  | x :: xs =>
    match splitOnChar c xs with
    | [] => [[]]
    | l :: ls => if x = c then [] :: l :: ls else (x :: l) :: ls

/-- Model of Go `strings.Join` with a one-character separator. -/
def joinChar (c : Char) : List GoStr → GoStr
  | [] => []
  | l :: ls => l ++ (ls.map (fun m => c :: m)).flatten

/-- Model of Go `strings.ReplaceAll` for a nonempty pattern (the `<br>`
variants replaced by `cleanText`; Go treats an empty pattern differently,
but the embedded code never passes one). -/
def replaceAll (pat rep : GoStr) : GoStr → GoStr
  | [] => []
  | x :: xs =>
    if h : pat ≠ [] ∧ pat.isPrefixOf (x :: xs) then
      rep ++ replaceAll pat rep ((x :: xs).drop pat.length)
    else
      x :: replaceAll pat rep xs
termination_by s => s.length
decreasing_by
  · simp only [List.length_drop, List.length_cons]
    have hp : 0 < pat.length := List.length_pos.mpr h.1
    omega
  · simp only [List.length_cons]
    omega

/-- An index returned by `goIndex` is a position inside the list (needed
for the termination argument of the tag-stripping loop below). -/
theorem goIndex_lt_length {c : Char} : ∀ {s : GoStr} {i : Nat},
    goIndex c s = some i → i < s.length := by
  intro s
  induction s with
  | nil => intro i h; simp [goIndex] at h
  | cons x xs ih =>
    intro i h
    simp only [goIndex] at h
    by_cases hx : x = c
    · simp only [if_pos hx, Option.some.injEq] at h
      simp only [List.length_cons]
      omega
    · simp only [hx, if_false, Option.map_eq_some'] at h
      obtain ⟨j, hj, rfl⟩ := h
      have := ih hj
      simp only [List.length_cons]
      omega

/-- The tag-stripping loop of `cleanText` (part_002 lines 173-180, same in
part_003): while the text contains both an opening and a closing angle
bracket, find the first opening bracket and the next closing bracket at or
after it and cut out the span between them inclusively; stop when no
closing bracket follows the first opening one. -/
def stripTags (s : GoStr) : GoStr :=
  if hb : ('<' ∈ s) ∧ ('>' ∈ s) then
    match hs : goIndex '<' s with
    | none => s
    | some start =>
      match hgt : goIndex '>' (s.drop start) with
      | none => s
      | some e => stripTags (s.take start ++ s.drop (start + e + 1))
  else s
termination_by s.length
decreasing_by
  have h1 : start < s.length := goIndex_lt_length hs
  have h2 : e < (s.drop start).length := goIndex_lt_length hgt
  simp only [List.length_append, List.length_take, List.length_drop] at *
  omega

/-- Model of `cleanText` (part_002 lines 166-194, byte-identical copy in
part_003 lines 111-139): convert `<br>` variants to newlines, strip the
remaining tag spans, trim surrounding whitespace, then trim every line and
drop the blank ones. -/
def cleanText (text : GoStr) : GoStr :=
  let t1 := replaceAll ['<', 'b', 'r', '>'] ['\n'] text
  let t2 := replaceAll ['<', 'b', 'r', '/', '>'] ['\n'] t1
  let t3 := replaceAll ['<', 'b', 'r', ' ', '/', '>'] ['\n'] t2
  let t4 := stripTags t3
  let t5 := goTrimSpace t4
  let lines := splitOnChar '\n' t5
  let cleanLines := (lines.map goTrimSpace).filter (fun l => !l.isEmpty)
  joinChar '\n' cleanLines

/-! ## Feed polling

Raw entries of a parsed feed (the fields of `gofeed.Item` consumed by the
code); `nil` entries of `feed.Items`, which both loops skip, are modelled
as absent from the list. -/

/-- The fields of a parsed feed entry used by the repository. -/
structure RawItem where
  title : GoStr
  description : GoStr
  link : GoStr
  guid : GoStr
  publishedParsed : Option Int
  updatedParsed : Option Int
deriving DecidableEq

/-- Identifier derivation shared by both pollers: the GUID when nonempty,
the link otherwise. -/
def itemGUID (item : RawItem) : GoStr :=
  if item.guid = [] then item.link else item.guid

/-- Publish-timestamp resolution shared by both pollers: PublishedParsed,
else UpdatedParsed, else the current time. -/
def resolveTime (now : Int) (item : RawItem) : Int :=
  match item.publishedParsed with
  | some t => t
  | none =>
    match item.updatedParsed with
    | some t => t
    | none => now

/-- The truncation step of `FeedService.saveState` (part_002 lines
141-155): the keys of the `lastChecked` map are listed in the iteration
order chosen by the Go runtime, and when more than 1000 keys exist only
the last 1000 entries of that list are kept. -/
def saveStateKeys (guids : List GoStr) : List GoStr :=
  if 1000 < guids.length then guids.drop (guids.length - 1000) else guids

/-- The retention set named by the spec: the n most recently inserted
identifiers of an insertion-ordered history.  Written from the words of
the spec, only to be compared against `saveStateKeys`. -/
def mostRecentlyInserted (n : Nat) (insertionOrder : List GoStr) : List GoStr :=
  insertionOrder.drop (insertionOrder.length - n)

namespace Novelty

/-- `FeedItem` of part_002. -/
structure FeedItem where
  title : GoStr
  description : GoStr
  link : GoStr
  published : Int
  guid : GoStr
deriving DecidableEq

/-- Construction of one new `FeedItem` (part_002 lines 78-92). -/
def mkFeedItem (now : Int) (item : RawItem) : FeedItem :=
  { title := cleanText item.title
    description := cleanText item.description
    link := item.link
    published := resolveTime now item
    guid := itemGUID item }

/-- The per-item loop of `FeedService.CheckForNewItems` (part_002 lines
61-98).  The `lastChecked` map is modelled by the list of its keys in
insertion order; the loop skips identifiers already present and appends
the new ones. -/
def checkLoop (now : Int) : List RawItem → List GoStr → List FeedItem × List GoStr
  | [], seen => ([], seen)
  | item :: rest, seen =>
    let g := itemGUID item
    if g ∈ seen then checkLoop now rest seen
    else
      let r := checkLoop now rest (seen ++ [g])
      (mkFeedItem now item :: r.1, r.2)

/-- `FeedService.CheckForNewItems` (part_002 lines 42-107) given an
already-fetched item list.  `loadState` merges the state file into the
in-memory map; across two calls on one service the file content is
already a subset of the map, so the merge is the identity and is not
repeated here.  The `saveState` call at the end truncates the key set;
this composed model iterates the map in insertion order, while the claim
about `saveState` itself (C1) treats arbitrary iteration orders. -/
def CheckForNewItems (now : Int) (items : List RawItem) (seen : List GoStr) :
    List FeedItem × List GoStr :=
  let r := checkLoop now items seen
  (r.1, saveStateKeys r.2)

end Novelty

namespace Recency

/-- `FeedItem` of part_003, which adds the source feed URL. -/
structure FeedItem where
  title : GoStr
  description : GoStr
  link : GoStr
  published : Int
  guid : GoStr
  feedURL : GoStr
deriving DecidableEq

/-- Construction of one recent `FeedItem` (part_003 lines 88-95). -/
def mkFeedItem (now : Int) (url : GoStr) (item : RawItem) : FeedItem :=
  { title := cleanText item.title
    description := cleanText item.description
    link := item.link
    published := resolveTime now item
    guid := itemGUID item
    feedURL := url }

/-- The per-feed loop of `FeedService.CheckForRecentItems` (part_003 lines
59-100): stop once the running index reaches `maxArticles`, and keep an
entry when its resolved timestamp is strictly after `now` minus 24 hours
(86400 seconds). -/
def checkFeedItems (now : Int) (maxArticles : Nat) (url : GoStr) :
    Nat → List RawItem → List FeedItem
  | _, [] => []
  | i, item :: rest =>
    if maxArticles ≤ i then []
    else if now - 86400 < resolveTime now item then
      mkFeedItem now url item :: checkFeedItems now maxArticles url (i + 1) rest
    else checkFeedItems now maxArticles url (i + 1) rest

/-- `FeedService.CheckForRecentItems` (part_003 lines 38-108) over
already-fetched feeds: a feed whose fetch failed (`none`) is skipped and
the per-feed results are concatenated. -/
def CheckForRecentItems (now : Int) (maxArticles : Nat)
    (feeds : List (GoStr × Option (List RawItem))) : List FeedItem :=
  (feeds.map (fun f =>
    match f.2 with
    | none => []
    | some items => checkFeedItems now maxArticles f.1 0 items)).flatten

/-- The 24-hour lookback window ending at `now`, as the claim words it.
Written from the words of the spec, only to be compared against the
filter used by `checkFeedItems`. -/
def inLookbackWindow (now t : Int) : Prop := now - 86400 < t ∧ t ≤ now

end Recency

/-! ## Translation and summarization

The DeepL and OpenAI HTTP calls are modelled as oracle functions supplied
as parameters; `Except.error` stands for any request failure. -/

/-- `TranslationResult` of part_003. -/
structure TranslationResult where
  OriginalTitle : GoStr
  TranslatedTitle : GoStr
  OriginalDescription : GoStr
  TranslatedDescription : GoStr
  Summary : GoStr
  Link : GoStr
deriving DecidableEq

/-- `TranslatorService.translateWithDeepL` (part_003 lines 247-302):
whitespace-only text short-circuits to an empty success without any HTTP
call; otherwise the outcome of the request is the oracle value. -/
def translateWithDeepL (deepLAPI : GoStr → Except GoStr GoStr) (text : GoStr) :
    Except GoStr GoStr :=
  if goTrimSpace text = [] then Except.ok []
  else deepLAPI text

/-- The post-processing of `generateSummaryWithOpenAI` (part_003 lines
395-401): trim surrounding whitespace, split into lines, and keep only the
first three lines when more than three remain. -/
def summaryPostprocess (content : GoStr) : GoStr :=
  let summary := goTrimSpace content
  let lines := splitOnChar '\n' summary
  if 3 < lines.length then joinChar '\n' (lines.take 3) else summary

/-- `TranslatorService.generateSummaryWithOpenAI` (part_003 lines 356-404):
the chat-completion call is the oracle; a successful response content is
post-processed by `summaryPostprocess`. -/
def generateSummaryWithOpenAI (openAI : GoStr → GoStr → Except GoStr GoStr)
    (title description : GoStr) : Except GoStr GoStr :=
  match openAI title description with
  | Except.error e => Except.error e
  | Except.ok content => Except.ok (summaryPostprocess content)

/-- The fixed fallback summary text of part_003 line 230. -/
def summaryFallbackText : GoStr := ("要約の生成に失敗しました。").data

/-- `TranslatorService.TranslateAndSummarize` (part_003 lines 209-244):
translate the title and the description, falling back to the original
text on failure; generate a summary, falling back to a fixed placeholder;
always return a successful result record. -/
def TranslateAndSummarize (deepLAPI : GoStr → Except GoStr GoStr)
    (openAI : GoStr → GoStr → Except GoStr GoStr) (item : Recency.FeedItem) :
    Except GoStr TranslationResult :=
  let translatedTitle :=
    match translateWithDeepL deepLAPI item.title with
    | Except.ok t => t
    | Except.error _ => item.title
  let translatedDescription :=
    match translateWithDeepL deepLAPI item.description with
    | Except.ok t => t
    | Except.error _ => item.description
  let summary :=
    match generateSummaryWithOpenAI openAI translatedTitle translatedDescription with
    | Except.ok s => s
    | Except.error _ => summaryFallbackText
  Except.ok
    { OriginalTitle := item.title
      TranslatedTitle := translatedTitle
      OriginalDescription := item.description
      TranslatedDescription := translatedDescription
      Summary := summary
      Link := item.link }

/-- Success test for `Except` values (a `nil` Go error). -/
def exceptIsOk {ε α : Type} : Except ε α → Bool
  | Except.ok _ => true
  | Except.error _ => false

/-- The first three lines of a text, exactly as the claim about summary
truncation words it.  Written from the words of the spec, only to be
compared against `summaryPostprocess`. -/
def firstThreeLines (s : GoStr) : GoStr :=
  joinChar '\n' ((splitOnChar '\n' s).take 3)

/-! ## Slack notification -/

/-- `Field` of notification.go. -/
structure Field where
  title : GoStr := []
  value : GoStr := []
  short : Bool := false
deriving DecidableEq

/-- `Attachment` of notification.go. -/
structure Attachment where
  color : GoStr := []
  title : GoStr := []
  titleLink : GoStr := []
  text : GoStr := []
  fields : List Field := []
  footer : GoStr := []
  timestamp : Int := 0
  markdownIn : List GoStr := []
deriving DecidableEq

/-- `SlackMessage` of notification.go. -/
structure SlackMessage where
  channel : GoStr := []
  username : GoStr := []
  iconEmoji : GoStr := []
  text : GoStr := []
  attachments : List Attachment := []
  threadTS : GoStr := []
deriving DecidableEq

/-- `NotificationService.truncateText` (notification.go lines 325-337):
keep a text of at most `maxLen` characters unchanged; otherwise cut it to
`maxLen` characters, move the cut back to the last space when that space
sits strictly beyond `maxLen / 2`, and append an ellipsis. -/
def truncateText (text : GoStr) (maxLen : Nat) : GoStr :=
  if text.length ≤ maxLen then text
  else
    let truncated := text.take maxLen
    let truncated2 :=
      match goLastIndex ' ' truncated with
      | some lastSpace =>
        if maxLen / 2 < lastSpace then truncated.take lastSpace else truncated
      | none => truncated
    truncated2 ++ ("...").data

/-- Last position satisfying a character predicate: `goLastIndex`
generalized from one character to a predicate, used only to state the
claim about `truncateText` in its own words. -/
def goLastIndexP (p : Char → Bool) : GoStr → Option Nat
  | [] => none
  | x :: xs =>
    match goLastIndexP p xs with
    | some i => some (i + 1)
    | none => if p x then some 0 else none

/-- `truncateText` as the claim words it: the cut prefers the last
whitespace boundary beyond the midpoint, for any whitespace character
rather than only the space character.  Written from the words of the
spec, only to be compared against `truncateText`. -/
def truncateTextClaim (text : GoStr) (maxLen : Nat) : GoStr :=
  if text.length ≤ maxLen then text
  else
    let truncated := text.take maxLen
    let truncated2 :=
      match goLastIndexP goIsSpace truncated with
      | some lastWS =>
        if maxLen / 2 < lastWS then truncated.take lastWS else truncated
      | none => truncated
    truncated2 ++ ("...").data

/-- Decimal rendering of a count, for the `%d` of the batch header. -/
def goItoa (n : Nat) : GoStr := (Nat.repr n).data

/-- Title of the batch header attachment (notification.go line 353). -/
def batchHeaderTitle (n : Nat) : GoStr :=
  (" ByteByteGoに ").data ++ goItoa n ++ (" 件の新しい記事が投稿されました！").data

/-- One per-article attachment of the batch message (notification.go lines
366-387); all but the last article get a separator line appended. -/
def articleAttachment (withSeparator : Bool) (r : TranslationResult) : Attachment :=
  { color := ("#2196F3").data
    title := r.TranslatedTitle
    titleLink := r.Link
    text := r.Summary ++ (if withSeparator then ("\n---").data else [])
    fields := [{ title := ("原文タイトル").data, value := r.OriginalTitle, short := false }]
    markdownIn := [("text").data] }

/-- The per-article attachments of the batch message, separator on every
article except the last. -/
def articleAttachments : List TranslationResult → List Attachment
  | [] => []
  | [r] => [articleAttachment false r]
  | r :: rest => articleAttachment true r :: articleAttachments rest

/-- The batch message built by `SendBatchNotification` (notification.go
lines 347-395): a header attachment whose title carries the total count,
followed by the attachments of at most the first five articles. -/
def buildBatchMessage (now : Int) (channel : GoStr)
    (results : List TranslationResult) : SlackMessage :=
  let headerAttachment : Attachment :=
    { color := ("#36a64f").data
      title := batchHeaderTitle results.length
      footer := ("ByteByteGo RSS通知").data
      timestamp := now
      markdownIn := [("text").data] }
  let truncated := if 5 < results.length then results.take 5 else results
  { channel := channel
    username := ("RSS通知Bot").data
    iconEmoji := (":newspaper:").data
    attachments := headerAttachment :: articleAttachments truncated }

/-- `NotificationService.SendBatchNotification` (notification.go lines
340-398), restricted to the message it posts: `none` models the immediate
`nil` return on an empty result list, where nothing is built or sent. -/
def SendBatchNotification (now : Int) (channel : GoStr)
    (results : List TranslationResult) : Option SlackMessage :=
  if results.length = 0 then none
  else some (buildBatchMessage now channel results)

/-! ## Notification orchestration (main.go)

`sendNotifications` is modelled by the sequence of webhook posts it
attempts.  The oracle `oc` gives the outcome of the k-th post of the
pass; every attempted post is recorded as an event. -/

/-- One attempted webhook post. -/
inductive SendEvent where
  | titlePost (r : TranslationResult) (ok : Bool)
  | threadReply (r : TranslationResult) (ok : Bool)
  | flatPost (r : TranslationResult) (ok : Bool)
  | batchPost (rs : List TranslationResult) (ok : Bool)
deriving DecidableEq

/-- `NotificationService.SendNewArticleNotification` (notification.go
lines 69-82): one flat post; result, next post counter, events. -/
def SendNewArticleNotification (oc : Nat → Bool) (n : Nat)
    (r : TranslationResult) : Bool × Nat × List SendEvent :=
  (oc n, n + 1, [SendEvent.flatPost r (oc n)])

/-- `NotificationService.SendNewArticleNotificationWithThread`
(notification.go lines 85-105): post the title message; on success post
the summary as a thread reply; fail as soon as either post fails. -/
def SendNewArticleNotificationWithThread (oc : Nat → Bool) (n : Nat)
    (r : TranslationResult) : Bool × Nat × List SendEvent :=
  if oc n then
    (oc (n + 1), n + 2, [SendEvent.titlePost r true, SendEvent.threadReply r (oc (n + 1))])
  else
    (false, n + 1, [SendEvent.titlePost r false])

/-- The send attempts of `SendBatchNotification`: an empty result list
returns success immediately without posting; otherwise one batch post. -/
def SendBatchNotificationEvents (oc : Nat → Bool) (n : Nat)
    (rs : List TranslationResult) : Bool × Nat × List SendEvent :=
  if rs.length = 0 then (true, n, [])
  else (oc n, n + 1, [SendEvent.batchPost rs (oc n)])

/-- The per-article fallback loop of `App.sendNotifications` (main.go
lines 227-257), run after a failed batch post: threaded mode tries the
threaded send first and falls back to a flat send when it fails; flat
mode sends flat directly.  The pacing sleeps have no observable effect
here. -/
def fallbackLoop (useThreads : Bool) (oc : Nat → Bool) :
    Nat → List TranslationResult → Nat × List SendEvent
  | n, [] => (n, [])
  | n, r :: rest =>
    if useThreads then
      let t := SendNewArticleNotificationWithThread oc n r
      if t.1 then
        let k := fallbackLoop useThreads oc t.2.1 rest
        (k.1, t.2.2 ++ k.2)
      else
        let f := SendNewArticleNotification oc t.2.1 r
        let k := fallbackLoop useThreads oc f.2.1 rest
        (k.1, t.2.2 ++ f.2.2 ++ k.2)
    else
      let f := SendNewArticleNotification oc n r
      let k := fallbackLoop useThreads oc f.2.1 rest
      (k.1, f.2.2 ++ k.2)

/-- `App.sendNotifications` (main.go lines 192-262): a single result is
sent threaded (falling back to flat on failure) or flat according to
configuration; several results are sent as one batch, falling back to
per-article sends when the batch post fails. -/
def sendNotifications (useThreads : Bool) (oc : Nat → Bool) (n : Nat)
    (results : List TranslationResult) : Nat × List SendEvent :=
  match results with
  | [r] =>
    if useThreads then
      let t := SendNewArticleNotificationWithThread oc n r
      if t.1 then (t.2.1, t.2.2)
      else
        let f := SendNewArticleNotification oc t.2.1 r
        (f.2.1, t.2.2 ++ f.2.2)
    else
      let f := SendNewArticleNotification oc n r
      (f.2.1, f.2.2)
  | rs =>
    let b := SendBatchNotificationEvents oc n rs
    if b.1 then (b.2.1, b.2.2)
    else
      let k := fallbackLoop useThreads oc b.2.1 rs
      (k.1, b.2.2 ++ k.2)

/-- Test for a flat-post event. -/
def isFlatPost : SendEvent → Bool
  | SendEvent.flatPost _ _ => true
  | _ => false

/-! ## Concrete inputs used by counterexamples and witnesses -/

/-- Pairwise distinct identifiers (the identifier of index n is n+1
letters long). -/
def cexId (n : Nat) : GoStr := List.replicate (n + 1) 'a'

/-- An insertion-ordered seen-state of 1001 distinct identifiers. -/
def saveInsOrder : List GoStr := (List.range 1001).map cexId

/-- A possible map iteration order for that state: the reverse of the
insertion order.  Go specifies no iteration order, so any permutation of
the key set can occur at save time. -/
def saveIterOrder : List GoStr := saveInsOrder.reverse

/-- A raw feed entry carrying the identifier of index n. -/
def cexRaw (n : Nat) : RawItem :=
  { title := [], description := [], link := [], guid := cexId n
    publishedParsed := some 0, updatedParsed := none }

/-- A feed of 1001 distinct entries, all new. -/
def cexItems : List RawItem := (List.range 1001).map cexRaw

/-- First entry of a small two-item feed. -/
def wItemA : RawItem :=
  { title := [], description := [], link := [], guid := ['a']
    publishedParsed := some 0, updatedParsed := none }

/-- Second entry of a small two-item feed. -/
def wItemB : RawItem :=
  { title := [], description := [], link := [], guid := ['b']
    publishedParsed := some 0, updatedParsed := none }

/-- An entry published 23 hours before the reference instant 0. -/
def recent23hA : RawItem :=
  { title := [], description := [], link := [], guid := ['a']
    publishedParsed := some (-82800), updatedParsed := none }

/-- A second entry published 23 hours before the reference instant. -/
def recent23hB : RawItem :=
  { title := [], description := [], link := [], guid := ['b']
    publishedParsed := some (-82800), updatedParsed := none }

/-- An entry published 25 hours before the reference instant. -/
def recent25h : RawItem :=
  { title := [], description := [], link := [], guid := ['c']
    publishedParsed := some (-90000), updatedParsed := none }

/-- An entry dated two days after the reference instant. -/
def futureRaw : RawItem :=
  { title := [], description := [], link := [], guid := ['f']
    publishedParsed := some 172800, updatedParsed := none }

/-- A concrete feed item for the translation-fallback witness. -/
def wTransItem : Recency.FeedItem :=
  { title := ['T'], description := ['D'], link := [], published := 0
    guid := [], feedURL := [] }

/-- A DeepL oracle whose every request fails. -/
def wFailAPI : GoStr → Except GoStr GoStr := fun _ => Except.error ['E']

/-- An OpenAI oracle whose every request fails. -/
def wFailSummary : GoStr → GoStr → Except GoStr GoStr := fun _ _ => Except.error ['E']

/-- An empty-fielded translation result for the batch witness. -/
def wResult : TranslationResult :=
  { OriginalTitle := [], TranslatedTitle := [], OriginalDescription := []
    TranslatedDescription := [], Summary := [], Link := [] }

/-- A concrete article for the threaded-fallback witness. -/
def wArticle : TranslationResult :=
  { OriginalTitle := ['t'], TranslatedTitle := ['t'], OriginalDescription := []
    TranslatedDescription := [], Summary := ['s'], Link := [] }

/-- A webhook oracle where only the first post of the pass succeeds. -/
def wOc : Nat → Bool := fun k => decide (k = 0)

/-! ## Lemmas about the string helpers -/

/-- A character with no occurrence position is absent. -/
theorem goIndex_eq_none {c : Char} : ∀ {s : GoStr}, goIndex c s = none → c ∉ s := by
  intro s
  induction s with
  | nil => intro _ h; simp at h
  | cons x xs ih =>
    intro hnone
    simp only [goIndex] at hnone
    by_cases hx : x = c
    · simp [hx] at hnone
    · simp only [hx, if_false, Option.map_eq_none'] at hnone
      simp only [List.mem_cons, not_or]
      exact ⟨fun h => hx h.symm, ih hnone⟩

/-- The first occurrence position is at most the position of any
occurrence. -/
theorem goIndex_le_of_split {c : Char} :
    ∀ (pre : GoStr) {suf s : GoStr} {i : Nat},
      goIndex c s = some i → s = pre ++ c :: suf → i ≤ pre.length := by
  intro pre
  induction pre with
  | nil =>
    intro suf s i hidx hs
    subst hs
    simp [goIndex] at hidx
    omega
  | cons p ps ih =>
    intro suf s i hidx hs
    subst hs
    simp only [List.cons_append, goIndex] at hidx
    by_cases hp : p = c
    · simp only [if_pos hp, Option.some.injEq] at hidx
      omega
    · simp only [hp, if_false, Option.map_eq_some'] at hidx
      obtain ⟨j, hj, rfl⟩ := hidx
      have := ih hj rfl
      simp only [List.length_cons]
      omega

/-- A two-character subsequence splits the list in three. -/
theorem sublist_pair_decomp {a b : Char} :
    ∀ {s : GoStr}, List.Sublist [a, b] s → ∃ u v w, s = u ++ a :: (v ++ b :: w) := by
  intro s
  induction s with
  | nil => intro h; simp at h
  | cons x xs ih =>
    intro h
    cases h with
    | cons _ h2 =>
      obtain ⟨u, v, w, rfl⟩ := ih h2
      exact ⟨x :: u, v, w, rfl⟩
    | cons₂ _ h2 =>
      have hb : b ∈ xs := List.singleton_sublist.mp h2
      obtain ⟨v, w, rfl⟩ := List.append_of_mem hb
      exact ⟨[], v, w, rfl⟩

/-- After the tag-stripping loop no opening angle bracket is followed by a
closing one. -/
theorem stripTags_no_span (s : GoStr) : ¬ List.Sublist ['<', '>'] (stripTags s) := by
  suffices h : ∀ (n : Nat) (t : GoStr), t.length = n → ¬ List.Sublist ['<', '>'] (stripTags t) by
    exact h s.length s rfl
  intro n
  induction n using Nat.strong_induction_on with
  | _ n ih =>
    intro t hn
    rw [stripTags]
    split
    · next hb =>
      split
      · next heq => exact fun _ => absurd hb.1 (goIndex_eq_none heq)
      · next start heq =>
        split
        · next hgt =>
          intro hsub
          obtain ⟨u, v, w, hdec⟩ := sublist_pair_decomp hsub
          have hstart : start ≤ u.length := goIndex_le_of_split u heq hdec
          have hmem : '>' ∈ t.drop u.length := by
            rw [hdec, List.drop_left]
            simp
          have hmem2 : '>' ∈ t.drop start := by
            have hdd : t.drop u.length = (t.drop start).drop (u.length - start) := by
              rw [List.drop_drop]
              congr 1
              omega
            rw [hdd] at hmem
            exact (List.drop_sublist _ _).subset hmem
          exact absurd hmem2 (goIndex_eq_none hgt)
        · next e hgt =>
          have h1 : start < t.length := goIndex_lt_length heq
          have h2 : e < (t.drop start).length := goIndex_lt_length hgt
          simp only [List.length_drop] at h2
          apply ih ((t.take start ++ t.drop (start + e + 1)).length)
          · simp only [List.length_append, List.length_take, List.length_drop]
            omega
          · rfl
    · next hb =>
      intro hsub
      exact hb ⟨hsub.subset (by simp), hsub.subset (by simp)⟩

/-- Trimming yields a subsequence. -/
theorem goTrimSpace_sublist (s : GoStr) : List.Sublist (goTrimSpace s) s := by
  have h1 : List.Sublist (s.dropWhile goIsSpace) s := List.dropWhile_sublist _
  have h2 : List.Sublist ((s.dropWhile goIsSpace).reverse.dropWhile goIsSpace)
      (s.dropWhile goIsSpace).reverse := List.dropWhile_sublist _
  have h3 := h2.reverse
  rw [List.reverse_reverse] at h3
  exact h3.trans h1

/-- Splitting never yields an empty list of pieces. -/
theorem splitOnChar_ne_nil (c : Char) (s : GoStr) : splitOnChar c s ≠ [] := by
  induction s with
  | nil => simp [splitOnChar]
  | cons x xs ih =>
    cases h : splitOnChar c xs with
    | nil => exact absurd h ih
    | cons l ls =>
      simp only [splitOnChar, h]
      split <;> simp

/-- Joining the pieces of a split rebuilds the original string. -/
theorem joinChar_splitOnChar (c : Char) (s : GoStr) :
    joinChar c (splitOnChar c s) = s := by
  induction s with
  | nil => simp [splitOnChar, joinChar]
  | cons x xs ih =>
    cases h : splitOnChar c xs with
    | nil => exact absurd h (splitOnChar_ne_nil c xs)
    | cons l ls =>
      rw [h] at ih
      simp only [joinChar] at ih
      by_cases hx : x = c
      · simp only [splitOnChar, h, if_pos hx]
        simp only [joinChar, List.map_cons, List.flatten_cons, List.nil_append,
          List.cons_append]
        rw [ih, hx]
      · simp only [splitOnChar, h, if_neg hx]
        simp only [joinChar, List.cons_append]
        rw [ih]

/-- A separator-join is a subsequence of the flattened separator-prefixed
pieces. -/
theorem joinChar_sublist_flatten (c : Char) (ls : List GoStr) :
    List.Sublist (joinChar c ls) ((ls.map (fun m => c :: m)).flatten) := by
  cases ls with
  | nil => simp [joinChar]
  | cons l ls =>
    simp only [joinChar, List.map_cons, List.flatten_cons]
    exact (List.sublist_cons_self c l).append (List.Sublist.refl _)

/-- Dropping blank lines and trimming each kept line refines the flattened
separator-prefixed pieces. -/
theorem flatten_clean_sublist (c : Char) (ls : List GoStr) :
    List.Sublist ((((ls.map goTrimSpace).filter (fun l => !l.isEmpty)).map (fun m => c :: m)).flatten)
      ((ls.map (fun m => c :: m)).flatten) := by
  induction ls with
  | nil => simp
  | cons l ls ih =>
    simp only [List.map_cons, List.filter_cons, List.flatten_cons]
    split
    · simp only [List.map_cons, List.flatten_cons]
      exact ((goTrimSpace_sublist l).cons₂ c).append ih
    · exact ih.trans (List.sublist_append_right _ _)

/-- The line-cleanup pass yields a subsequence of the join of the original
lines. -/
theorem joinChar_clean_sublist (c : Char) (ls : List GoStr) :
    List.Sublist (joinChar c ((ls.map goTrimSpace).filter (fun l => !l.isEmpty))) (joinChar c ls) := by
  cases ls with
  | nil => simp [joinChar]
  | cons l ls =>
    by_cases hl : (goTrimSpace l).isEmpty
    · rw [show (List.map goTrimSpace (l :: ls)).filter (fun l => !l.isEmpty) =
          (List.map goTrimSpace ls).filter (fun l => !l.isEmpty) from by
        simp [List.filter_cons, hl]]
      show List.Sublist _ (l ++ (ls.map (fun m => c :: m)).flatten)
      exact ((joinChar_sublist_flatten c _).trans (flatten_clean_sublist c ls)).trans
        (List.sublist_append_right _ _)
    · rw [show (List.map goTrimSpace (l :: ls)).filter (fun l => !l.isEmpty) =
          goTrimSpace l :: (List.map goTrimSpace ls).filter (fun l => !l.isEmpty) from by
        simp [List.filter_cons, hl]]
      show List.Sublist (goTrimSpace l ++
        (((List.map goTrimSpace ls).filter (fun l => !l.isEmpty)).map
          (fun m => c :: m)).flatten) (l ++ (ls.map (fun m => c :: m)).flatten)
      exact (goTrimSpace_sublist l).append (flatten_clean_sublist c ls)

/-- The whole post-strip cleanup (trim, split, per-line trim, drop blanks,
join) yields a subsequence of its input. -/
theorem cleanup_sublist (t : GoStr) :
    List.Sublist (joinChar '\n' (((splitOnChar '\n' (goTrimSpace t)).map goTrimSpace).filter
      (fun l => !l.isEmpty))) t := by
  have h1 := joinChar_clean_sublist '\n' (splitOnChar '\n' (goTrimSpace t))
  rw [joinChar_splitOnChar] at h1
  exact h1.trans (goTrimSpace_sublist t)

/-- C2: for every input string, including strings with nested or malformed
markup, `cleanText` is a total function (it is defined by well-founded
recursion on the text length) and its output never contains an opening
angle bracket followed later by a closing one: the two-character pattern
is not a subsequence of the output. -/
theorem cleanText_no_residual_span (text : GoStr) :
    ¬ List.Sublist ['<', '>'] (cleanText text) := by
  intro hsub
  have heq : cleanText text =
      joinChar '\n' (((splitOnChar '\n' (goTrimSpace (stripTags
        (replaceAll ['<', 'b', 'r', ' ', '/', '>'] ['\n']
          (replaceAll ['<', 'b', 'r', '/', '>'] ['\n']
            (replaceAll ['<', 'b', 'r', '>'] ['\n'] text)))))).map goTrimSpace).filter
        (fun l => !l.isEmpty)) := rfl
  rw [heq] at hsub
  exact stripTags_no_span _ (hsub.trans (cleanup_sublist _))

/-! ## C1: the state cap of saveState -/

/-- The identifier family of the counterexamples is injective. -/
theorem cexId_injective : Function.Injective cexId := by
  intro m n h
  have := congrArg List.length h
  simpa [cexId] using this

/-- The 1001-identifier insertion order, last element split off. -/
theorem saveInsOrder_eq :
    saveInsOrder = (List.range 1000).map cexId ++ [cexId 1000] := by
  have h : (1001 : Nat) = 1000 + 1 := rfl
  rw [saveInsOrder, h, List.range_succ, List.map_append, List.map_singleton]

/-- C1 counterexample: for the seen-state of 1001 identifiers inserted in
order, with the map iterated in reverse insertion order (a permutation of
the key set, hence a possible Go iteration order), the kept list is not
the set of the 1000 most recently inserted identifiers: the most recently
inserted identifier itself is dropped. -/
theorem saveStateKeys_drops_recent_id :
    List.Perm saveIterOrder saveInsOrder ∧
    1000 < saveInsOrder.length ∧
    cexId 1000 ∈ mostRecentlyInserted 1000 saveInsOrder ∧
    cexId 1000 ∉ saveStateKeys saveIterOrder := by
  have hlen : saveInsOrder.length = 1001 := by simp [saveInsOrder]
  refine ⟨List.reverse_perm _, by omega, ?_, ?_⟩
  · simp only [mostRecentlyInserted, hlen]
    rw [saveInsOrder_eq, List.drop_append_of_le_length (by simp)]
    simp
  · have hrev : saveIterOrder = cexId 1000 :: ((List.range 1000).map cexId).reverse := by
      rw [saveIterOrder, saveInsOrder_eq]
      simp
    have hlen2 : saveIterOrder.length = 1001 := by
      simp [saveIterOrder, hlen]
    simp only [saveStateKeys, hlen2, if_pos (by omega : 1000 < 1001)]
    rw [hrev]
    simp only [List.drop_succ_cons, List.drop_zero]
    intro hmem
    rw [List.mem_reverse] at hmem
    obtain ⟨k, hk, heq⟩ := List.mem_map.mp hmem
    have := cexId_injective heq
    subst this
    exact absurd (List.mem_range.mp hk) (by omega)

/-- C1 amended: for every seen-state of more than 1000 identifiers the
save operation retains exactly 1000 identifiers, each drawn from the
state; which 1000 depends on the map iteration order, which Go does not
tie to insertion recency (see the counterexample). -/
theorem saveStateKeys_count (insertionOrder iterationOrder : List GoStr)
    (hperm : List.Perm iterationOrder insertionOrder)
    (hlen : 1000 < insertionOrder.length) :
    (saveStateKeys iterationOrder).length = 1000 ∧
      ∀ g ∈ saveStateKeys iterationOrder, g ∈ insertionOrder := by
  have hl : iterationOrder.length = insertionOrder.length := hperm.length_eq
  have hlt : 1000 < iterationOrder.length := by omega
  constructor
  · simp only [saveStateKeys, if_pos hlt, List.length_drop]
    omega
  · intro g hg
    simp only [saveStateKeys, if_pos hlt] at hg
    exact hperm.subset ((List.drop_sublist _ _).subset hg)

/-- Witness for the amended C1 at the concrete 1001-identifier state. -/
theorem saveStateKeys_count_witness :
    (List.Perm saveInsOrder saveInsOrder ∧ 1000 < saveInsOrder.length) ∧
    ((saveStateKeys saveInsOrder).length = 1000 ∧
      ∀ g ∈ saveStateKeys saveInsOrder, g ∈ saveInsOrder) := by
  have h1 : 1000 < saveInsOrder.length := by simp [saveInsOrder]
  exact ⟨⟨List.Perm.refl _, h1⟩, saveStateKeys_count _ _ (List.Perm.refl _) h1⟩

/-! ## C3: idempotence of novelty polling -/

/-- The per-item loop only ever appends to the seen-state. -/
theorem checkLoop_state_extend (now : Int) :
    ∀ (items : List RawItem) (seen : List GoStr),
      ∃ ext, (Novelty.checkLoop now items seen).2 = seen ++ ext := by
  intro items
  induction items with
  | nil => intro seen; exact ⟨[], by simp [Novelty.checkLoop]⟩
  | cons item rest ih =>
    intro seen
    simp only [Novelty.checkLoop]
    split
    · exact ih seen
    · obtain ⟨ext, hext⟩ := ih (seen ++ [itemGUID item])
      exact ⟨[itemGUID item] ++ ext, by rw [hext, List.append_assoc]⟩

/-- Every identifier of a processed item ends up in the seen-state. -/
theorem checkLoop_marks_all (now : Int) :
    ∀ (items : List RawItem) (seen : List GoStr) (item : RawItem),
      item ∈ items → itemGUID item ∈ (Novelty.checkLoop now items seen).2 := by
  intro items
  induction items with
  | nil => intro seen item h; simp at h
  | cons it rest ih =>
    intro seen item h
    simp only [Novelty.checkLoop]
    rcases List.mem_cons.mp h with rfl | hmem
    · split
      · next hseen =>
        obtain ⟨ext, hext⟩ := checkLoop_state_extend now rest seen
        rw [hext]
        exact List.mem_append_left _ hseen
      · obtain ⟨ext, hext⟩ := checkLoop_state_extend now rest (seen ++ [itemGUID item])
        show itemGUID item ∈ (Novelty.checkLoop now rest (seen ++ [itemGUID item])).2
        rw [hext]
        exact List.mem_append_left _ (by simp)
    · split
      · exact ih seen item hmem
      · exact ih (seen ++ [itemGUID it]) item hmem

/-- A pass over items whose identifiers are all already seen reports
nothing and leaves the state unchanged. -/
theorem checkLoop_all_seen (now : Int) :
    ∀ (items : List RawItem) (seen : List GoStr),
      (∀ item ∈ items, itemGUID item ∈ seen) →
      Novelty.checkLoop now items seen = ([], seen) := by
  intro items
  induction items with
  | nil => intro seen _; rfl
  | cons it rest ih =>
    intro seen h
    simp only [Novelty.checkLoop]
    rw [if_pos (h it (by simp))]
    exact ih seen (fun item hm => h item (by simp [hm]))

/-- C3 amended: novelty-mode polling is idempotent provided the
accumulated identifier set stays within the 1000-entry retention cap, so
that the save-time truncation evicts nothing; the counterexample shows
the unconditional claim fails once the cap is exceeded. -/
theorem CheckForNewItems_idempotent (now now2 : Int) (items : List RawItem)
    (seen : List GoStr)
    (hcap : (Novelty.checkLoop now items seen).2.length ≤ 1000) :
    (Novelty.CheckForNewItems now2 items
      (Novelty.CheckForNewItems now items seen).2).1 = [] := by
  have hid : saveStateKeys (Novelty.checkLoop now items seen).2 =
      (Novelty.checkLoop now items seen).2 := by
    simp only [saveStateKeys]
    rw [if_neg (by omega)]
  have hall : ∀ item ∈ items, itemGUID item ∈ (Novelty.checkLoop now items seen).2 :=
    fun item hm => checkLoop_marks_all now items seen item hm
  simp only [Novelty.CheckForNewItems, hid]
  rw [checkLoop_all_seen now2 items _ hall]

/-- Witness for the amended C3 on a concrete two-item feed. -/
theorem CheckForNewItems_idempotent_witness :
    (Novelty.checkLoop 0 [wItemA, wItemB] []).2.length ≤ 1000 ∧
    (Novelty.CheckForNewItems 0 [wItemA, wItemB]
      (Novelty.CheckForNewItems 0 [wItemA, wItemB] []).2).1 = [] :=
  ⟨by decide, CheckForNewItems_idempotent 0 0 [wItemA, wItemB] [] (by decide)⟩

/-- The counterexample entries expose their identifiers. -/
theorem cexRaw_guid (n : Nat) : itemGUID (cexRaw n) = cexId n := by
  simp [itemGUID, cexRaw, cexId, List.replicate_succ]

/-- The identifiers of the 1001-item feed. -/
theorem cexItems_ids : cexItems.map itemGUID = (List.range 1001).map cexId := by
  simp only [cexItems, List.map_map]
  exact List.map_congr_left (fun n _ => cexRaw_guid n)

/-- A pass over pairwise-distinct fresh items reports all of them and
appends all their identifiers. -/
theorem checkLoop_all_new (now : Int) :
    ∀ (items : List RawItem) (seen : List GoStr),
      (items.map itemGUID).Nodup →
      (∀ item ∈ items, itemGUID item ∉ seen) →
      Novelty.checkLoop now items seen =
        (items.map (Novelty.mkFeedItem now), seen ++ items.map itemGUID) := by
  intro items
  induction items with
  | nil => intro seen _ _; simp [Novelty.checkLoop]
  | cons it rest ih =>
    intro seen hnd hfresh
    have hnd2 : (itemGUID it ∉ rest.map itemGUID) ∧ (rest.map itemGUID).Nodup := by
      rw [List.map_cons, List.nodup_cons] at hnd
      exact hnd
    simp only [Novelty.checkLoop]
    rw [if_neg (hfresh it (by simp))]
    rw [ih (seen ++ [itemGUID it]) hnd2.2 ?fresh]
    · simp [List.append_assoc]
    case fresh =>
      intro item hm
      simp only [List.mem_append, List.mem_singleton, not_or]
      refine ⟨hfresh item (by simp [hm]), fun heq => ?_⟩
      exact hnd2.1 (heq ▸ List.mem_map_of_mem itemGUID hm)

/-- The reported items of a pass are those of the per-item loop. -/
theorem CheckForNewItems_fst (now : Int) (items : List RawItem) (seen : List GoStr) :
    (Novelty.CheckForNewItems now items seen).1 =
      (Novelty.checkLoop now items seen).1 := rfl

/-- One unfolding step of the per-item loop on an unseen head item. -/
theorem checkLoop_cons_not_seen (now : Int) (item : RawItem) (rest : List RawItem)
    (seen : List GoStr) (h : itemGUID item ∉ seen) :
    (Novelty.checkLoop now (item :: rest) seen).1 =
      Novelty.mkFeedItem now item ::
        (Novelty.checkLoop now rest (seen ++ [itemGUID item])).1 := by
  simp only [Novelty.checkLoop]
  rw [if_neg h]

/-- C3 counterexample: a feed of 1001 distinct new items exceeds the
retention cap, the save-time truncation evicts the identifier of a
current item, and the second pass over the unchanged feed reports that
item again instead of returning an empty list. -/
theorem CheckForNewItems_not_idempotent :
    (Novelty.CheckForNewItems 0 cexItems
      (Novelty.CheckForNewItems 0 cexItems []).2).1 ≠ [] := by
  have hnodup : (cexItems.map itemGUID).Nodup := by
    rw [cexItems_ids]
    exact (List.nodup_range 1001).map cexId_injective
  have h1 : Novelty.checkLoop 0 cexItems [] =
      (cexItems.map (Novelty.mkFeedItem 0), [] ++ cexItems.map itemGUID) :=
    checkLoop_all_new 0 cexItems [] hnodup (by simp)
  have hstate : (Novelty.CheckForNewItems 0 cexItems []).2 =
      ((List.range 1001).map cexId).drop 1 := by
    simp only [Novelty.CheckForNewItems, h1, List.nil_append, cexItems_ids]
    simp only [saveStateKeys, List.length_map, List.length_range]
    rw [if_pos (by omega)]
  have hnotin : itemGUID (cexRaw 0) ∉ ((List.range 1001).map cexId).drop 1 := by
    rw [cexRaw_guid]
    rw [List.range_succ_eq_map, List.map_cons, List.drop_succ_cons, List.drop_zero]
    intro hmem
    rw [List.map_map] at hmem
    obtain ⟨k, _, heq⟩ := List.mem_map.mp hmem
    have := cexId_injective heq
    omega
  have hcons : cexItems = cexRaw 0 :: (List.range 1000).map (fun k => cexRaw (k + 1)) := by
    simp only [cexItems]
    rw [List.range_succ_eq_map, List.map_cons, List.map_map]
    rfl
  rw [hstate, CheckForNewItems_fst, hcons,
    checkLoop_cons_not_seen 0 (cexRaw 0) _ _ hnotin]
  exact List.cons_ne_nil _ _

/-! ## C4: the recency-mode window -/

/-- The per-feed loop is the window filter over the first
maxArticles raw entries (counter generalized). -/
theorem checkFeedItems_eq (now : Int) (maxA : Nat) (url : GoStr) :
    ∀ (items : List RawItem) (i : Nat),
      Recency.checkFeedItems now maxA url i items =
        ((items.take (maxA - i)).filter
          (fun item => decide (now - 86400 < resolveTime now item))).map
          (Recency.mkFeedItem now url) := by
  intro items
  induction items with
  | nil => intro i; simp [Recency.checkFeedItems]
  | cons it rest ih =>
    intro i
    simp only [Recency.checkFeedItems]
    by_cases hi : maxA ≤ i
    · rw [if_pos hi]
      have h0 : maxA - i = 0 := by omega
      simp [h0]
    · rw [if_neg hi]
      have hsub : maxA - i = (maxA - (i + 1)) + 1 := by omega
      rw [hsub, List.take_succ_cons, List.filter_cons]
      by_cases hw : now - 86400 < resolveTime now it
      · rw [if_pos hw, ih (i + 1)]
        simp [hw]
      · rw [if_neg hw, ih (i + 1)]
        simp [hw]

/-- C4 amended: recency mode returns exactly the entries among the first
maxArticles raw entries whose resolved timestamp is strictly newer than
now minus 24 hours.  The window has no upper end, so future-dated entries
are returned as well (see the counterexample); on the claim scenario (two
items 23 hours old, one item 25 hours old) exactly the first two are
returned. -/
theorem CheckForRecentItems_window :
    (∀ (now : Int) (maxA : Nat) (url : GoStr) (items : List RawItem),
      Recency.checkFeedItems now maxA url 0 items =
        ((items.take maxA).filter
          (fun item => decide (now - 86400 < resolveTime now item))).map
          (Recency.mkFeedItem now url)) ∧
    Recency.CheckForRecentItems 0 5 [([], some [recent23hA, recent23hB, recent25h])] =
      [Recency.mkFeedItem 0 [] recent23hA, Recency.mkFeedItem 0 [] recent23hB] := by
  constructor
  · intro now maxA url items
    simpa using checkFeedItems_eq now maxA url items 0
  · simp only [Recency.CheckForRecentItems, List.map_cons, List.map_nil,
      List.flatten_cons, List.flatten_nil, List.append_nil]
    rw [checkFeedItems_eq 0 5 [] [recent23hA, recent23hB, recent25h] 0]
    norm_num [List.take, List.filter_cons, resolveTime, recent23hA, recent23hB,
      recent25h, List.map_cons]

/-- C4 counterexample: an entry dated two days in the future is outside
every 24-hour lookback window ending at the reference instant, yet the
recency check returns it. -/
theorem CheckForRecentItems_future_item :
    (Recency.checkFeedItems 0 5 [] 0 [futureRaw]).map (fun item => item.published) =
      [172800] ∧ ¬ Recency.inLookbackWindow 0 172800 := by
  constructor
  · rw [checkFeedItems_eq 0 5 [] [futureRaw] 0]
    norm_num [List.take, List.filter_cons, resolveTime, futureRaw, List.map_cons,
      Recency.mkFeedItem]
  · simp only [Recency.inLookbackWindow, not_and]
    intro _
    omega

/-! ## C5: translation fallback -/

/-- C5: translation and summarization never abort an item: the result is
always a success record, and whenever the title (resp. description)
translation fails the corresponding translated field is exactly the
original text. -/
theorem TranslateAndSummarize_fallback (deepLAPI : GoStr → Except GoStr GoStr)
    (openAI : GoStr → GoStr → Except GoStr GoStr) (item : Recency.FeedItem) :
    exceptIsOk (TranslateAndSummarize deepLAPI openAI item) = true ∧
    (∀ e, translateWithDeepL deepLAPI item.title = Except.error e →
      (TranslateAndSummarize deepLAPI openAI item).map
        (fun r => r.TranslatedTitle) = Except.ok item.title) ∧
    (∀ e, translateWithDeepL deepLAPI item.description = Except.error e →
      (TranslateAndSummarize deepLAPI openAI item).map
        (fun r => r.TranslatedDescription) = Except.ok item.description) := by
  refine ⟨rfl, ?_, ?_⟩
  · intro e he
    simp only [TranslateAndSummarize, he, Except.map]
  · intro e he
    simp only [TranslateAndSummarize, he, Except.map]

/-- Witness for C5: with an always-failing DeepL oracle the translated
fields of a concrete item are exactly the originals, and no error is
returned. -/
theorem TranslateAndSummarize_fallback_witness :
    (TranslateAndSummarize wFailAPI wFailSummary wTransItem).map
      (fun r => r.TranslatedTitle) = Except.ok wTransItem.title ∧
    (TranslateAndSummarize wFailAPI wFailSummary wTransItem).map
      (fun r => r.TranslatedDescription) = Except.ok wTransItem.description :=
  ⟨(TranslateAndSummarize_fallback wFailAPI wFailSummary wTransItem).2.1 ['E'] rfl,
   (TranslateAndSummarize_fallback wFailAPI wFailSummary wTransItem).2.2 ['E'] rfl⟩

/-! ## C6: summary truncation -/

/-- C6 counterexample: a five-line generated summary that starts with a
blank line is not reduced to its own first three lines: the code trims
surrounding whitespace before counting, discarding the leading blank line
first. -/
theorem summaryPostprocess_not_first_lines :
    3 < (splitOnChar '\n' ['\n', 'A', '\n', 'B', '\n', 'C', '\n', 'D']).length ∧
    summaryPostprocess ['\n', 'A', '\n', 'B', '\n', 'C', '\n', 'D'] ≠
      firstThreeLines ['\n', 'A', '\n', 'B', '\n', 'C', '\n', 'D'] := by
  decide

/-- C6 amended: the summary post-processing returns the first three lines
of the whitespace-trimmed text, all of it when the trimmed text has three
or fewer lines; a plain five-line summary becomes exactly its first three
lines. -/
theorem summaryPostprocess_first_three :
    (∀ content, summaryPostprocess content = firstThreeLines (goTrimSpace content)) ∧
    summaryPostprocess ['A', '\n', 'B', '\n', 'C', '\n', 'D', '\n', 'E'] =
      ['A', '\n', 'B', '\n', 'C'] := by
  constructor
  · intro content
    simp only [summaryPostprocess, firstThreeLines]
    by_cases h : 3 < (splitOnChar '\n' (goTrimSpace content)).length
    · rw [if_pos h]
    · rw [if_neg h, List.take_of_length_le (by omega)]
      exact (joinChar_splitOnChar '\n' (goTrimSpace content)).symm
  · decide

/-! ## C7: batch attachment cap -/

/-- The batch view carries one attachment per listed article. -/
theorem articleAttachments_length : ∀ (rs : List TranslationResult),
    (articleAttachments rs).length = rs.length := by
  intro rs
  induction rs with
  | nil => rfl
  | cons r rest ih =>
    cases rest with
    | nil => rfl
    | cons s rest2 =>
      simp only [articleAttachments, List.length_cons] at ih ⊢
      omega

/-- C7: for every nonempty result list the batch notification message
contains one header attachment plus min(length, 5) per-article
attachments. -/
theorem SendBatchNotification_attachment_count (now : Int) (channel : GoStr)
    (results : List TranslationResult) (h : results ≠ []) :
    (SendBatchNotification now channel results).map
      (fun m => m.attachments.length) = some (1 + min results.length 5) := by
  have hne : results.length ≠ 0 := fun h0 => h (List.length_eq_zero.mp h0)
  simp only [SendBatchNotification, if_neg hne, buildBatchMessage, Option.map_some']
  congr 1
  simp only [List.length_cons, articleAttachments_length]
  by_cases h5 : 5 < results.length
  · rw [if_pos h5, List.length_take]
    omega
  · rw [if_neg h5]
    omega

/-- Witness for C7: eight results yield a header plus exactly five
article attachments, six in total. -/
theorem SendBatchNotification_attachment_count_witness :
    List.replicate 8 wResult ≠ ([] : List TranslationResult) ∧
    (SendBatchNotification 0 [] (List.replicate 8 wResult)).map
      (fun m => m.attachments.length) = some 6 := by
  refine ⟨by decide, ?_⟩
  have h := SendBatchNotification_attachment_count 0 [] (List.replicate 8 wResult)
    (by decide)
  simpa [List.length_replicate] using h

/-! ## C8: threaded send with flat fallback -/

/-- C8: in threaded single-article mode, a failed threaded send (either a
failed title post or a failed thread reply after a successful title post)
triggers exactly one flat fallback post for the same article; a
successful threaded send triggers none. -/
theorem sendNotifications_thread_fallback (oc : Nat → Bool) (n : Nat)
    (r : TranslationResult) :
    ((SendNewArticleNotificationWithThread oc n r).1 = false →
      ((sendNotifications true oc n [r]).2.filter isFlatPost) =
        [SendEvent.flatPost r (oc (SendNewArticleNotificationWithThread oc n r).2.1)]) ∧
    ((SendNewArticleNotificationWithThread oc n r).1 = true →
      ((sendNotifications true oc n [r]).2.filter isFlatPost) = []) := by
  by_cases h0 : oc n
  · by_cases h1 : oc (n + 1)
    · constructor
      · intro h
        simp [SendNewArticleNotificationWithThread, h0, h1] at h
      · intro _
        simp [sendNotifications, SendNewArticleNotificationWithThread, h0, h1,
          isFlatPost, List.filter]
    · constructor
      · intro _
        simp [sendNotifications, SendNewArticleNotificationWithThread,
          SendNewArticleNotification, h0, h1, isFlatPost, List.filter]
      · intro h
        simp [SendNewArticleNotificationWithThread, h0, h1] at h
  · constructor
    · intro _
      simp [sendNotifications, SendNewArticleNotificationWithThread,
        SendNewArticleNotification, h0, isFlatPost, List.filter]
    · intro h
      simp [SendNewArticleNotificationWithThread, h0] at h

/-- Witness for C8, the claim scenario: the title post succeeds, the
thread reply fails, and exactly one flat fallback post for the same
article is attempted. -/
theorem sendNotifications_thread_fallback_witness :
    ((sendNotifications true wOc 0 [wArticle]).2.filter isFlatPost) =
      [SendEvent.flatPost wArticle
        (wOc (SendNewArticleNotificationWithThread wOc 0 wArticle).2.1)] :=
  (sendNotifications_thread_fallback wOc 0 wArticle).1 (by decide)

/-! ## C9: text truncation -/

/-- A string with no in-range occurrence has no last occurrence. -/
theorem goLastIndex_eq_none {c : Char} :
    ∀ {s : GoStr}, (∀ j, j < s.length → s[j]? ≠ some c) →
      goLastIndex c s = none := by
  intro s
  induction s with
  | nil => intro _; rfl
  | cons x xs ih =>
    intro h
    have htail : goLastIndex c xs = none := by
      apply ih
      intro j hj
      have := h (j + 1) (by simp only [List.length_cons]; omega)
      simpa using this
    simp only [goLastIndex, htail]
    rw [if_neg ?head]
    case head =>
      intro hx
      exact h 0 (by simp) (by simp [hx])

/-- If position i holds the character and no later in-range position
does, the last occurrence is i. -/
theorem goLastIndex_eq_some {c : Char} :
    ∀ {s : GoStr} {i : Nat}, s[i]? = some c →
      (∀ j, j < s.length → i < j → s[j]? ≠ some c) →
      goLastIndex c s = some i := by
  intro s
  induction s with
  | nil => intro i h _; simp at h
  | cons x xs ih =>
    intro i hi hmax
    cases i with
    | zero =>
      simp only [List.getElem?_cons_zero, Option.some.injEq] at hi
      have hnone : goLastIndex c xs = none := by
        apply goLastIndex_eq_none
        intro j hj
        have := hmax (j + 1) (by simp only [List.length_cons]; omega) (by omega)
        simpa using this
      simp only [goLastIndex, hnone]
      rw [if_pos hi]
    | succ k =>
      simp only [List.getElem?_cons_succ] at hi
      have hxs : goLastIndex c xs = some k := by
        apply ih hi
        intro j hj hk
        have := hmax (j + 1) (by simp only [List.length_cons]; omega) (by omega)
        simpa using this
      simp only [goLastIndex, hxs]

/-- C9 amended: text within the limit is returned unchanged; longer text
is cut to the first maxLen characters, the cut moves back to the last
space character (only the space character, not every whitespace
character; see the counterexample) when that space sits strictly beyond
maxLen / 2, and an ellipsis is appended. -/
theorem truncateText_spec (text : GoStr) (maxLen : Nat) :
    (text.length ≤ maxLen → truncateText text maxLen = text) ∧
    (maxLen < text.length →
      (∀ i, (text.take maxLen)[i]? = some ' ' →
        (∀ j, j < maxLen → i < j → (text.take maxLen)[j]? ≠ some ' ') →
        (maxLen / 2 < i →
          truncateText text maxLen = (text.take maxLen).take i ++ ("...").data) ∧
        (i ≤ maxLen / 2 →
          truncateText text maxLen = text.take maxLen ++ ("...").data)) ∧
      ((∀ j, j < maxLen → (text.take maxLen)[j]? ≠ some ' ') →
        truncateText text maxLen = text.take maxLen ++ ("...").data)) := by
  constructor
  · intro hle
    simp only [truncateText, if_pos hle]
  · intro hgt
    have hlen : (text.take maxLen).length = maxLen := by
      rw [List.length_take]
      omega
    constructor
    · intro i hi hmax
      have hsome : goLastIndex ' ' (text.take maxLen) = some i :=
        goLastIndex_eq_some hi (fun j hj hij => hmax j (hlen ▸ hj) hij)
      constructor
      · intro hmid
        simp only [truncateText, if_neg (by omega : ¬ text.length ≤ maxLen), hsome]
        rw [if_pos hmid]
      · intro hmid
        simp only [truncateText, if_neg (by omega : ¬ text.length ≤ maxLen), hsome]
        rw [if_neg (by omega)]
    · intro hnone
      have h0 : goLastIndex ' ' (text.take maxLen) = none :=
        goLastIndex_eq_none (fun j hj => hnone j (hlen ▸ hj))
      simp only [truncateText, if_neg (by omega : ¬ text.length ≤ maxLen), h0]

/-- Witness for the amended C9: the limit-12 prefix of a 15-character
text is cut back to the space at position 11, beyond the midpoint 6. -/
theorem truncateText_spec_witness :
    truncateText ("hello world abc").data 12 =
      ((("hello world abc").data.take 12).take 11 ++ ("...").data) := by
  have h := (truncateText_spec ("hello world abc").data 12).2 (by decide)
  exact (h.1 11 (by decide) (by decide)).1 (by decide)

/-- C9 counterexample: the code searches only for the space character, so
a tab boundary beyond the midpoint is not used as a cut point, while the
claim asks for the last whitespace boundary. -/
theorem truncateText_whitespace_cex :
    truncateText ("abcdef\tgh").data 8 = ("abcdef\tg...").data ∧
    truncateTextClaim ("abcdef\tgh").data 8 = ("abcdef...").data ∧
    truncateText ("abcdef\tgh").data 8 ≠ truncateTextClaim ("abcdef\tgh").data 8 := by
  refine ⟨?_, ?_, ?_⟩ <;> decide

/-! ## C10: empty batch send -/

/-- C10: on an empty result list the batch send returns success
immediately: no message is built and no webhook post is attempted. -/
theorem SendBatchNotification_empty (now : Int) (channel : GoStr)
    (oc : Nat → Bool) (n : Nat) :
    SendBatchNotification now channel [] = none ∧
    SendBatchNotificationEvents oc n [] = (true, n, []) := ⟨rfl, rfl⟩

end RSSNotify
